import Mathlib

/-!
Verification development for `os-stats.py`, a command-line tool that queries
the Stackalytics contribution API for one or more users and prints aggregated
contribution metrics.

The script is shallowly embedded here:
* Python dictionaries become association lists (`List (String × _)`) with
  lookup/assignment operations matching dict semantics (replace the value in
  place when the key exists, append otherwise);
* the JSON values coming back from the remote API become the inductive `JVal`;
* the network is an environment `String → Option JVal` mapping a request URL
  to the parsed JSON body (`none` models a network or JSON-decoding failure);
* functions that can raise an uncaught Python exception return `Except String _`
  or `Option _`, with `.error`/`none` marking the raise;
* printing is modelled by returning the list of strings passed to `print`.
File reading is abstracted to the first line of each file (the only part the
script uses); `get_tokens`'s comma splitting of that line is modelled by
`charSplit`.
-/

namespace OsStats

/-- JSON values as returned by the Stackalytics API.  Metric counts are
integers; `marks` is an object mapping a vote value to a count. -/
inductive JVal where
  | jnull : JVal
  | jbool : Bool → JVal
  | jint : Int → JVal
  | jstr : String → JVal
  | jarr : List JVal → JVal
  | jobj : List (String × JVal) → JVal

/-- Python `d[k]` read on a dict modelled as an association list: the value at
the first (for a dict: only) occurrence of `k`, or `none` (a `KeyError`). -/
def pyDictGet {α : Type} (r : List (String × α)) (k : String) : Option α :=
  match r with
  | [] => none
  | p :: rest => if p.1 = k then some p.2 else pyDictGet rest k

/-- Python `d[k] = v` on a dict modelled as an association list: replace the
value in place when the key is present, append the new pair otherwise. -/
def pyDictSet {α : Type} (r : List (String × α)) (k : String) (v : α) :
    List (String × α) :=
  match r with
  | [] => [(k, v)]
  | p :: rest => if p.1 = k then (k, v) :: rest else p :: pyDictSet rest k v

/-- Python truthiness (`if x:`) of a JSON value: `None`, `0`, `""`, `[]` and
`{}` are falsy; everything else is truthy. -/
def pyTruthy : JVal → Bool
  | .jnull => false
  | .jbool b => b
  | .jint n => decide (n ≠ 0)
  | .jstr s => decide (s ≠ "")
  | .jarr es => !es.isEmpty
  | .jobj fs => !fs.isEmpty

/-- A JSON value usable as a Python integer operand (`int`, or `bool`, which
Python treats as 0/1 in arithmetic); anything else is a `TypeError`. -/
def toIntNum : JVal → Option Int
  | .jint n => some n
  | .jbool b => some (if b then 1 else 0)
  | _ => none

/-- Python `sum(...)` over a list of JSON values: left-to-right addition
starting from `acc`; a non-numeric element is a `TypeError` (`none`). -/
def sumVals (acc : Int) : List JVal → Option Int
  | [] => some acc
  | v :: rest =>
    match toIntNum v with
    | some n => sumVals (acc + n) rest
    | none => none

def STACKALYTICS_BASE_URL : String := "http://stackalytics.com"

def CONTRIB_URL : String := STACKALYTICS_BASE_URL ++ "/api/1.0/contribution"

/-- The query URL built by `__get_contribution_for_user`: `release` is added
only when it is a truthy string (Python `if release:`). -/
def buildUrl (user : String) (release : Option String) : String :=
  let url := CONTRIB_URL ++ "?user_id=" ++ user
  match release with
  | some r => if r = "" then url else
      url ++ "&project_type=openstack&release=" ++ r
  | none => url

/-- The value of `ret` after the `try/except` block of
`__get_contribution_for_user`: `response['contribution']` when the response
parsed as JSON, is an object and has that key (a JSON `null` is Python
`None`); `none` on any failure, which the bare `except` swallows. -/
def rawContribution (resp : Option JVal) : Option JVal :=
  match resp with
  | some (.jobj fs) =>
    match pyDictGet fs "contribution" with
    | some .jnull => none
    | x => x
  | _ => none

/-- Body of `__get_contribution_for_user` applied to the parsed response.
After the guarded fetch, `if ret:` selects truthy values, and only then is
`ret['marks'] = sum(ret['marks'].values())` executed — outside the
`try/except`, so a truthy contribution without a well-shaped `marks` raises
(modelled with `.error`). -/
def processContribution (resp : Option JVal) : Except String (Option JVal) :=
  match rawContribution resp with
  | none => .ok none
  | some v =>
    if pyTruthy v then
      match v with
      | .jobj fs =>
        match pyDictGet fs "marks" with
        | none => .error "KeyError: marks"
        | some marks =>
          match marks with
          | .jobj ms =>
            match sumVals 0 (ms.map Prod.snd) with
            | some s => .ok (some (.jobj (pyDictSet fs "marks" (.jint s))))
            | none => .error "TypeError: unsupported operand type for sum"
          | _ => .error "AttributeError: values"
      | _ => .error "TypeError: value is not subscriptable"
    else .ok (some v)

/-- `__get_contribution_for_user`, with the network modelled by `env` mapping
a URL to the parsed JSON body of the response (`none` = request or JSON
decoding failure). -/
def get_contribution_for_user (env : String → Option JVal) (user : String)
    (release : Option String) : Except String (Option JVal) :=
  processContribution (env (buildUrl user release))

/-- A contribution record after normalization: metric name to integer count
(the shape the aggregation loop's `+` requires). -/
abbrev ContribRec := List (String × Int)

/-- The keys of the zero record initialized at the top of
`__get_aggregate_contributions`, in source order. -/
def knownKeys : List String :=
  ["change_request_count", "commit_count", "completed_blueprint_count",
   "drafted_blueprint_count", "email_count", "filed_bug_count", "loc",
   "marks", "patch_set_count", "resolved_bug_count",
   "abandoned_change_requests_count", "translations"]

/-- The zero record `ret = dict(change_request_count=0, ...)`. -/
def initRec : ContribRec := knownKeys.map (fun k => (k, 0))

/-- The inner loop `for key in contrib: ret[key] = ret[key] + contrib[key]`:
`ret[key]` on a key absent from `ret` is a `KeyError` (`none`). -/
def addContrib (acc : ContribRec) : ContribRec → Option ContribRec
  | [] => some acc
  | p :: rest =>
    match pyDictGet acc p.1 with
    | none => none
    | some x => addContrib (pyDictSet acc p.1 (x + p.2)) rest

/-- The outer loop of `__get_aggregate_contributions` starting from `acc`. -/
def get_aggregate_contributions_from (acc : ContribRec) :
    List ContribRec → Option ContribRec
  | [] => some acc
  | c :: rest =>
    match addContrib acc c with
    | none => none
    | some acc2 => get_aggregate_contributions_from acc2 rest

/-- `__get_aggregate_contributions`: fold every record into the zero record;
`none` models the uncaught `KeyError` on a metric key outside `knownKeys`. -/
def get_aggregate_contributions (l : List ContribRec) : Option ContribRec :=
  get_aggregate_contributions_from initRec l

/-- Sum of the values carried by key `k` in one record (for a dict, whose keys
are distinct, this is the value at `k`, or 0 when `k` is absent). -/
def entrySum (r : ContribRec) (k : String) : Int :=
  match r with
  | [] => 0
  | p :: rest => (if p.1 = k then p.2 else 0) + entrySum rest k

/-- Total contributed to key `k` by a list of records. -/
def totalSum (l : List ContribRec) (k : String) : Int :=
  (l.map (fun r => entrySum r k)).sum

/-- Python `str.strip()`: drop leading and trailing whitespace. -/
def pyStrip (s : String) : String :=
  String.mk
    (((s.toList.dropWhile Char.isWhitespace).reverse.dropWhile
      Char.isWhitespace).reverse)

/-- Python `str.find(c)`: index of the first occurrence, `-1` when absent. -/
def pyFind (s : List Char) (c : Char) : Int :=
  match s with
  | [] => -1
  | a :: rest =>
    if a = c then 0
    else if pyFind rest c = -1 then -1 else pyFind rest c + 1

/-- The slice `email[0:email.find('@')]`: the part before the first `@`; with
no `@`, `find` returns `-1` and the slice drops the last character. -/
def localPart (email : String) : String :=
  let i := pyFind email.toList '@'
  if i = -1 then String.mk email.toList.dropLast
  else String.mk (email.toList.take i.toNat)

/-- Python `sep`-splitting of a character list (`str.split(sep)` semantics:
every occurrence separates, empty pieces are kept). -/
def charSplit (sep : Char) : List Char → List (List Char)
  | [] => [[]]
  | c :: rest =>
    match charSplit sep rest with
    | [] => [[]]
    | g :: gs => if c = sep then [] :: g :: gs else (c :: g) :: gs

/-- `get_tokens`: the first line of a file (here, the line itself — file I/O is
abstracted away) split on commas. -/
def get_tokens (line : String) : List String :=
  (charSplit ',' line.toList).map String.mk

/-- `x.split(':')` for one alias-file token. -/
def colonSplit (x : String) : List String :=
  (charSplit ':' x.toList).map String.mk

/-- Building the `{email-prefix: gerrit-id}` dict from the alias-file tokens:
each token must split on `:` into exactly two parts (otherwise the tuple
unpacking in the dict comprehension raises, modelled by `none`); both sides
are stripped; later duplicates overwrite earlier ones as in a dict. -/
def buildUserMapFrom (acc : List (String × String)) :
    List String → Option (List (String × String))
  | [] => some acc
  | x :: rest =>
    match colonSplit x with
    | [k, v] => buildUserMapFrom (pyDictSet acc (pyStrip k) (pyStrip v)) rest
    | _ => none

def buildUserMap (toks : List String) : Option (List (String × String)) :=
  buildUserMapFrom [] toks

/-- `get_eff_user`: with no map file the token is returned unchanged; with one,
the alias dict is built (re-read per user in the source, with identical
content each time) and `user_map[user] if user in user_map else user`. -/
def get_eff_user (user : String) (mapLine : Option String) : Option String :=
  match mapLine with
  | none => some user
  | some ml => (buildUserMap (get_tokens ml)).map
      (fun m => (pyDictGet m user).getD user)

/-- The list comprehension of `__get_users_from_file`: each email is sliced at
the first `@`, stripped, and passed through `get_eff_user`. -/
def resolveAll (mapLine : Option String) : List String → Option (List String)
  | [] => some []
  | e :: rest =>
    match get_eff_user (pyStrip (localPart e)) mapLine,
        resolveAll mapLine rest with
    | some u, some us => some (u :: us)
    | _, _ => none

/-- `__get_users_from_file`: resolve every email of the first line of the email
file, then `list(set(...))` (deduplication; a Python set has no defined order,
modelled here by `List.dedup`). -/
def get_users_from_file (line : String) (mapLine : Option String) :
    Option (List String) :=
  (resolveAll mapLine (get_tokens line)).map List.dedup

def noDataMsg : String :=
  "Could not find any OpenStack contribution data for that user."

/-- Insertion of an element into a list sorted by `le`. -/
def insertBy {α : Type} (le : α → α → Bool) (x : α) : List α → List α
  | [] => [x]
  | y :: ys => if le x y then x :: y :: ys else y :: insertBy le x ys

/-- Insertion sort by `le` (used to model Python's `list.sort()` and
`json.dumps(..., sort_keys=True)`). -/
def sortBy {α : Type} (le : α → α → Bool) : List α → List α
  | [] => []
  | x :: xs => insertBy le x (sortBy le xs)

def strLe (a b : String) : Bool := !(decide (b < a))

/-- Python `list.sort()` on strings. -/
def pySort (l : List String) : List String := sortBy strLe l

def sortFields (fs : List (String × JVal)) : List (String × JVal) :=
  sortBy (fun a b => strLe a.1 b.1) fs

mutual

/-- Serialization of a JSON value, modelling `json.dumps` (whitespace
simplified; the claims below never inspect the rendered text, only which
branch of the display routine produced it). -/
def jdump : JVal → String
  | .jnull => "null"
  | .jbool b => if b then "true" else "false"
  | .jint n => toString n
  | .jstr s => "\"" ++ s ++ "\""
  | .jarr es => "[" ++ jdumpList es ++ "]"
  | .jobj fs => "\x7b" ++ jdumpFields fs ++ "\x7d"

def jdumpList : List JVal → String
  | [] => ""
  | [v] => jdump v
  | v :: vs => jdump v ++ ", " ++ jdumpList vs

def jdumpFields : List (String × JVal) → String
  | [] => ""
  | [(k, v)] => "\"" ++ k ++ "\": " ++ jdump v
  | (k, v) :: fs => "\"" ++ k ++ "\": " ++ jdump v ++ ", " ++ jdumpFields fs

end

/-- `json.dumps(x, indent=4, sort_keys=True)` with top-level keys sorted
(whitespace simplified as above). -/
def jsonDumps (v : JVal) : String :=
  match v with
  | .jobj fs => "\x7b" ++ jdumpFields (sortFields fs) ++ "\x7d"
  | v => jdump v

/-- `__display_stats`: truthy data prints the header and the serialized
record; `None` or falsy data prints the fixed no-data message.  The returned
list holds the strings passed to `print`. -/
def display_stats (contrib_data : Option JVal) : List String :=
  match contrib_data with
  | none => [noDataMsg]
  | some v => if pyTruthy v then ["Contributions:", jsonDumps v] else [noDataMsg]

/-- `__display_user_stats`: fetch then display (an uncaught exception from the
fetch propagates). -/
def display_user_stats (env : String → Option JVal) (user : String)
    (release : Option String) : Except String (List String) :=
  match get_contribution_for_user env user release with
  | .error e => .error e
  | .ok c => .ok (display_stats c)

/-- The fetch loop of `__display_aggregate_stats`: users whose fetch comes back
falsy are appended to `unknown`, the others' records to `contribs`. -/
def fetch_loop (env : String → Option JVal) (release : Option String)
    (unknown : List String) (contribs : List JVal) :
    List String → Except String (List String × List JVal)
  | [] => .ok (unknown, contribs)
  | u :: rest =>
    match get_contribution_for_user env u release with
    | .error e => .error e
    | .ok none => fetch_loop env release (unknown ++ [u]) contribs rest
    | .ok (some v) =>
      if pyTruthy v then fetch_loop env release unknown (contribs ++ [v]) rest
      else fetch_loop env release (unknown ++ [u]) contribs rest

/-- Conversion of a fetched JSON record to the integer-valued shape the
aggregation loop's `+` requires; a non-integer metric value would be the
`TypeError` Python raises when adding it. -/
def asIntFields : List (String × JVal) → Option ContribRec
  | [] => some []
  | (k, v) :: rest =>
    match toIntNum v, asIntFields rest with
    | some n, some r => some ((k, n) :: r)
    | _, _ => none

def asIntRec : JVal → Option ContribRec
  | .jobj fs => asIntFields fs
  | _ => none

def allIntRecs : List JVal → Option (List ContribRec)
  | [] => some []
  | v :: rest =>
    match asIntRec v, allIntRecs rest with
    | some r, some rs => some (r :: rs)
    | _, _ => none

/-- The banner printed before the aggregate record: the sorted not-found users
framed by fixed delimiter lines (one `print` call, hence one string). -/
def aggBanner (sortedUnknown : List String) : List String :=
  ["----------------------------------------\n" ++
   "Users not found on review.openstack.org:\n" ++
   "----------------------------------------\n" ++
   String.intercalate ", " sortedUnknown ++ "\n" ++
   "----------------------------------------"]

/-- Embedding of a normalized integer record back into `JVal` for display. -/
def recToJVal (r : ContribRec) : JVal :=
  .jobj (r.map (fun p => (p.1, JVal.jint p.2)))

/-- `__display_aggregate_stats` after user resolution: fetch every user,
sort and print the not-found banner, then display the aggregate record. -/
def display_aggregate_for_users (env : String → Option JVal)
    (release : Option String) (users : List String) :
    Except String (List String) :=
  match fetch_loop env release [] [] users with
  | .error e => .error e
  | .ok (unknown, contribsJ) =>
    match allIntRecs contribsJ with
    | none => .error "TypeError: unsupported operand"
    | some contribs =>
      match get_aggregate_contributions contribs with
      | none => .error "KeyError: unknown metric"
      | some agg =>
        .ok (aggBanner (pySort unknown) ++ display_stats (some (recToJVal agg)))

/-- `__display_aggregate_stats`: resolve the users from the email file (its
first line), then fetch, aggregate and display. -/
def display_aggregate_stats (env : String → Option JVal) (line : String)
    (mapLine : Option String) (release : Option String) :
    Option (Except String (List String)) :=
  (get_users_from_file line mapLine).map
    (fun users => display_aggregate_for_users env release users)

/-!
A second embedding of `__get_aggregate_contributions` with Python's reference
semantics made explicit, to state what the function mutates.  A `Store` is a
heap of dict objects addressed by allocation index; every dict read and write
of the source goes through the store.  The pure embedding above is this one
with the heap erased.
-/

/-- A heap of dict objects; an address is an index into the list. -/
abbrev Store := List ContribRec

/-- Dereference an address (reads of a dangling address never occur in the
modelled runs; `[]` is a dummy). -/
def storeGet (s : Store) (a : Nat) : ContribRec := s.getD a []

/-- Overwrite the object at an address. -/
def storeSet (s : Store) (a : Nat) (r : ContribRec) : Store := s.set a r

/-- One iteration `ret[key] = ret[key] + contrib[key]` acting on the store:
both dicts are read from the heap, and only `ret`'s address is written. -/
def aggKeyStep (s : Store) (retAddr contribAddr : Nat) (k : String) :
    Option Store :=
  match pyDictGet (storeGet s retAddr) k,
      pyDictGet (storeGet s contribAddr) k with
  | some x, some y =>
    some (storeSet s retAddr (pyDictSet (storeGet s retAddr) k (x + y)))
  | _, _ => none

/-- The inner `for key in contrib` loop over the store. -/
def aggContribLoop (retAddr contribAddr : Nat) (s : Store) :
    List String → Option Store
  | [] => some s
  | k :: ks =>
    match aggKeyStep s retAddr contribAddr k with
    | none => none
    | some s2 => aggContribLoop retAddr contribAddr s2 ks

/-- The outer `for contrib in contrib_list` loop over the store; the key list
of each record is read from the heap when its iteration starts. -/
def aggLoopSt (retAddr : Nat) (s : Store) : List Nat → Option Store
  | [] => some s
  | a :: rest =>
    match aggContribLoop retAddr a s ((storeGet s a).map Prod.fst) with
    | none => none
    | some s2 => aggLoopSt retAddr s2 rest

/-- `__get_aggregate_contributions` on the store: `ret = dict(...)` allocates a
fresh zero record at the next free address, the loops run, and the address of
the result is returned together with the final heap. -/
def get_aggregate_contributions_st (s : Store) (addrs : List Nat) :
    Option (Store × Nat) :=
  (aggLoopSt s.length (s ++ [initRec]) addrs).map (fun s2 => (s2, s.length))

/-! ### Lemmas about the dict operations -/

theorem pyDictGet_set_self {α : Type} (r : List (String × α)) (k : String)
    (v : α) : pyDictGet (pyDictSet r k v) k = some v := by
  induction r with
  | nil => simp [pyDictSet, pyDictGet]
  | cons p rest ih =>
    by_cases h : p.1 = k
    · simp [pyDictSet, h, pyDictGet]
    · simp [pyDictSet, h, pyDictGet, ih]

theorem pyDictGet_set_ne {α : Type} (r : List (String × α)) (k k2 : String)
    (v : α) (h : k2 ≠ k) : pyDictGet (pyDictSet r k v) k2 = pyDictGet r k2 := by
  have h' : ¬(k = k2) := fun hh => h hh.symm
  induction r with
  | nil => simp [pyDictSet, pyDictGet, h']
  | cons p rest ih =>
    by_cases hp : p.1 = k
    · simp [pyDictSet, hp, pyDictGet, h']
    · simp only [pyDictSet, hp, if_false, pyDictGet, ih]

theorem pyDictGet_none_iff {α : Type} (r : List (String × α)) (k : String) :
    pyDictGet r k = none ↔ k ∉ r.map Prod.fst := by
  induction r with
  | nil => simp [pyDictGet]
  | cons p rest ih =>
    by_cases hp : p.1 = k
    · subst hp; simp [pyDictGet]
    · rw [List.map_cons, List.mem_cons]
      simp only [pyDictGet, hp, if_false, ih]
      constructor
      · intro hk hor
        rcases hor with h1 | h2
        · exact hp h1.symm
        · exact hk h2
      · intro hk h2
        exact hk (Or.inr h2)

theorem pyDictGet_some_mem {α : Type} {r : List (String × α)} {k : String}
    {x : α} (h : pyDictGet r k = some x) : k ∈ r.map Prod.fst := by
  by_contra hk
  rw [← pyDictGet_none_iff r k] at hk
  rw [h] at hk
  exact Option.noConfusion hk

theorem keys_pyDictSet_of_mem {α : Type} {r : List (String × α)} {k : String}
    {x : α} (v : α) (h : pyDictGet r k = some x) :
    (pyDictSet r k v).map Prod.fst = r.map Prod.fst := by
  induction r with
  | nil => simp [pyDictGet] at h
  | cons p rest ih =>
    by_cases hp : p.1 = k
    · simp [pyDictSet, hp]
    · simp only [pyDictGet, hp, if_false] at h
      simp [pyDictSet, hp, ih h]

theorem knownKeys_nodup : knownKeys.Nodup := by decide

theorem pyDictGet_map_mem (L : List String) (f : String → Int) (k : String)
    (h : k ∈ L) :
    pyDictGet (L.map (fun x => (x, f x))) k = some (f k) := by
  induction L with
  | nil => simp at h
  | cons a L ih =>
    by_cases ha : a = k
    · subst ha; simp [pyDictGet]
    · rcases List.mem_cons.mp h with h1 | h2
      · exact absurd h1.symm ha
      · simp [pyDictGet, ha, ih h2]

theorem pyDictSet_map_mem (L : List String) (f : String → Int) (k : String)
    (v : Int) (hnd : L.Nodup) (h : k ∈ L) :
    pyDictSet (L.map (fun x => (x, f x))) k v =
      L.map (fun x => (x, if x = k then v else f x)) := by
  induction L with
  | nil => simp at h
  | cons a L ih =>
    rcases List.nodup_cons.mp hnd with ⟨hna, hndL⟩
    by_cases ha : a = k
    · subst ha
      simp only [List.map_cons, pyDictSet, if_pos rfl, if_true]
      have : L.map (fun x => (x, if x = a then v else f x)) =
          L.map (fun x => (x, f x)) := by
        apply List.map_congr_left
        intro x hx
        have : x ≠ a := fun hh => hna (hh ▸ hx)
        simp [this]
      rw [this]
    · rcases List.mem_cons.mp h with h1 | h2
      · exact absurd h1.symm ha
      · simp only [List.map_cons, pyDictSet, ha, if_false, ih hndL h2]

/-! ### Lemmas about the aggregation -/

theorem initRec_keys : initRec.map Prod.fst = knownKeys := rfl

theorem addContrib_known (c : ContribRec) (f : String → Int)
    (hc : ∀ p ∈ c, p.1 ∈ knownKeys) :
    addContrib (knownKeys.map (fun x => (x, f x))) c =
      some (knownKeys.map (fun x => (x, f x + entrySum c x))) := by
  induction c generalizing f with
  | nil =>
    have he : (fun x => (x, f x + entrySum [] x)) = fun x => (x, f x) := by
      funext x
      simp [entrySum]
    simp [addContrib, he]
  | cons p rest ih =>
    have hp : p.1 ∈ knownKeys := hc p (List.mem_cons_self p rest)
    have hrest : ∀ q ∈ rest, q.1 ∈ knownKeys :=
      fun q hq => hc q (List.mem_cons_of_mem p hq)
    simp only [addContrib, pyDictGet_map_mem knownKeys f p.1 hp]
    rw [pyDictSet_map_mem knownKeys f p.1 (f p.1 + p.2) knownKeys_nodup hp]
    rw [ih (fun x => if x = p.1 then f p.1 + p.2 else f x) hrest]
    have he : (fun x => (x, (if x = p.1 then f p.1 + p.2 else f x) +
        entrySum rest x)) =
        fun x => (x, f x + entrySum (p :: rest) x) := by
      funext x
      by_cases hx : x = p.1
      · subst hx
        simp [entrySum, add_assoc]
      · have hx2 : ¬(p.1 = x) := fun hh => hx hh.symm
        simp [entrySum, hx, hx2]
    rw [he]

theorem agg_from_known (l : List ContribRec) (f : String → Int)
    (hl : ∀ r ∈ l, ∀ p ∈ r, p.1 ∈ knownKeys) :
    get_aggregate_contributions_from (knownKeys.map (fun x => (x, f x))) l =
      some (knownKeys.map (fun x => (x, f x + totalSum l x))) := by
  induction l generalizing f with
  | nil =>
    have he : (fun x => (x, f x + totalSum [] x)) = fun x => (x, f x) := by
      funext x
      simp [totalSum]
    simp [get_aggregate_contributions_from, he]
  | cons c rest ih =>
    have hc : ∀ p ∈ c, p.1 ∈ knownKeys := hl c (List.mem_cons_self c rest)
    have hrest : ∀ r ∈ rest, ∀ p ∈ r, p.1 ∈ knownKeys :=
      fun r hr => hl r (List.mem_cons_of_mem c hr)
    simp only [get_aggregate_contributions_from, addContrib_known c f hc]
    rw [ih (fun x => f x + entrySum c x) hrest]
    have he : (fun x => (x, f x + entrySum c x + totalSum rest x)) =
        fun x => (x, f x + totalSum (c :: rest) x) := by
      funext x
      rw [Prod.mk.injEq]
      refine ⟨rfl, ?_⟩
      simp only [totalSum, List.map_cons, List.sum_cons]
      ring
    rw [he]

theorem agg_spec (l : List ContribRec)
    (hl : ∀ r ∈ l, ∀ p ∈ r, p.1 ∈ knownKeys) :
    get_aggregate_contributions l =
      some (knownKeys.map (fun x => (x, totalSum l x))) := by
  have h0 : initRec = knownKeys.map (fun x => (x, (fun _ => (0 : Int)) x)) :=
    rfl
  rw [get_aggregate_contributions, h0, agg_from_known l (fun _ => 0) hl]
  have he : (fun x => (x, (fun _ => (0 : Int)) x + totalSum l x)) =
      fun x => (x, totalSum l x) := by
    funext x
    simp
  rw [he]

theorem entrySum_of_not_mem (r : ContribRec) (k : String)
    (h : k ∉ r.map Prod.fst) : entrySum r k = 0 := by
  induction r with
  | nil => rfl
  | cons p rest ih =>
    have hp : ¬(p.1 = k) := by
      intro hh
      exact h (by simp [hh])
    have hr : k ∉ rest.map Prod.fst := by
      intro hh
      exact h (by simp [hh])
    simp [entrySum, hp, ih hr]

theorem entrySum_eq_getD (r : ContribRec) (k : String)
    (hnd : (r.map Prod.fst).Nodup) :
    entrySum r k = (pyDictGet r k).getD 0 := by
  induction r with
  | nil => rfl
  | cons p rest ih =>
    rw [List.map_cons, List.nodup_cons] at hnd
    obtain ⟨hp, hrest⟩ := hnd
    by_cases hk : p.1 = k
    · subst hk
      have h0 : entrySum rest p.1 = 0 := entrySum_of_not_mem rest p.1 hp
      simp [entrySum, pyDictGet, h0]
    · simp [entrySum, pyDictGet, hk, ih hrest]

theorem addContrib_some_keys {acc c acc2 : ContribRec}
    (h : addContrib acc c = some acc2) :
    acc2.map Prod.fst = acc.map Prod.fst ∧
      ∀ p ∈ c, p.1 ∈ acc.map Prod.fst := by
  induction c generalizing acc with
  | nil =>
    simp only [addContrib] at h
    injection h with h2
    subst h2
    exact ⟨rfl, by simp⟩
  | cons p rest ih =>
    simp only [addContrib] at h
    split at h
    · exact Option.noConfusion h
    · rename_i x hget
      obtain ⟨hkeys, hsub⟩ := ih h
      have hset := keys_pyDictSet_of_mem (x + p.2) hget
      refine ⟨hkeys.trans hset, ?_⟩
      intro q hq
      rcases List.mem_cons.mp hq with h1 | h2
      · subst h1
        exact pyDictGet_some_mem hget
      · have := hsub q h2
        rwa [hset] at this

theorem agg_from_some_keys {l : List ContribRec} {acc res : ContribRec}
    (h : get_aggregate_contributions_from acc l = some res) :
    ∀ r ∈ l, ∀ p ∈ r, p.1 ∈ acc.map Prod.fst := by
  induction l generalizing acc with
  | nil => simp
  | cons c rest ih =>
    simp only [get_aggregate_contributions_from] at h
    split at h
    · exact Option.noConfusion h
    · rename_i acc2 hstep
      obtain ⟨hkeys, hsub⟩ := addContrib_some_keys hstep
      intro r hr p hp
      rcases List.mem_cons.mp hr with h1 | h2
      · subst h1
        exact hsub p hp
      · have := ih h r h2 p hp
        rwa [hkeys] at this

/-! ### Lemmas about the fetch loop -/

theorem fetch_loop_all_absent (env : String → Option JVal)
    (release : Option String) (users acc : List String) (cs : List JVal)
    (h : ∀ u ∈ users, env (buildUrl u release) = none) :
    fetch_loop env release acc cs users = .ok (acc ++ users, cs) := by
  induction users generalizing acc with
  | nil => simp [fetch_loop]
  | cons u rest ih =>
    have hu : env (buildUrl u release) = none := h u (List.mem_cons_self u rest)
    have hrest : ∀ w ∈ rest, env (buildUrl w release) = none :=
      fun w hw => h w (List.mem_cons_of_mem u hw)
    simp only [fetch_loop, get_contribution_for_user, hu, processContribution,
      rawContribution]
    rw [ih (acc ++ [u]) hrest]
    simp

/-! ### Lemmas about the resolver -/

theorem pyFind_eq_neg_one (cs : List Char) (c : Char) (h : c ∉ cs) :
    pyFind cs c = -1 := by
  induction cs with
  | nil => rfl
  | cons a rest ih =>
    have ha : ¬(a = c) := fun hh => h (hh ▸ List.mem_cons_self a rest)
    have hr : c ∉ rest := fun hh => h (List.mem_cons_of_mem a hh)
    simp [pyFind, ha, ih hr]

theorem charSplit_no_sep (sep : Char) (cs : List Char) (h : sep ∉ cs) :
    charSplit sep cs = [cs] := by
  induction cs with
  | nil => rfl
  | cons c rest ih =>
    have hc : ¬(c = sep) := fun hh => h (hh ▸ List.mem_cons_self c rest)
    have hr : sep ∉ rest := fun hh => h (List.mem_cons_of_mem c hh)
    simp [charSplit, ih hr, hc]

theorem get_tokens_no_comma (line : String) (h : ',' ∉ line.toList) :
    get_tokens line = [line] := by
  unfold get_tokens
  rw [charSplit_no_sep ',' line.toList h]
  rfl

theorem resolveAll_some_map (mapLine : String) (m : List (String × String))
    (hm : buildUserMap (get_tokens mapLine) = some m) (es : List String) :
    resolveAll (some mapLine) es =
      some (es.map (fun e =>
        (pyDictGet m (pyStrip (localPart e))).getD (pyStrip (localPart e)))) := by
  induction es with
  | nil => rfl
  | cons e rest ih =>
    simp only [resolveAll, get_eff_user, hm, Option.map_some', ih,
      List.map_cons]

/-! ### Lemmas about the store model -/

theorem storeGet_set_ne (s : Store) (a i : Nat) (r : ContribRec)
    (h : i ≠ a) : storeGet (storeSet s a r) i = storeGet s i := by
  induction s generalizing a i with
  | nil => rfl
  | cons x xs ih =>
    cases a with
    | zero =>
      cases i with
      | zero => exact absurd rfl h
      | succ j => rfl
    | succ a2 =>
      cases i with
      | zero => rfl
      | succ j => exact ih a2 j (fun hh => h (by rw [hh]))

theorem storeGet_append_lt (s t : Store) (a : Nat) (h : a < s.length) :
    storeGet (s ++ t) a = storeGet s a := by
  induction s generalizing a with
  | nil => simp at h
  | cons x xs ih =>
    cases a with
    | zero => rfl
    | succ j => exact ih j (Nat.lt_of_succ_lt_succ h)

theorem aggKeyStep_frame {s : Store} {ra ca : Nat} {k : String} {s2 : Store}
    (h : aggKeyStep s ra ca k = some s2) (i : Nat) (hi : i ≠ ra) :
    storeGet s2 i = storeGet s i := by
  unfold aggKeyStep at h
  split at h
  · injection h with h2
    subst h2
    exact storeGet_set_ne s ra i _ hi
  · exact Option.noConfusion h

theorem aggContribLoop_frame {ra ca : Nat} (ks : List String) {s s2 : Store}
    (h : aggContribLoop ra ca s ks = some s2) (i : Nat) (hi : i ≠ ra) :
    storeGet s2 i = storeGet s i := by
  induction ks generalizing s with
  | nil =>
    simp only [aggContribLoop] at h
    injection h with h2
    subst h2
    rfl
  | cons k ks ih =>
    simp only [aggContribLoop] at h
    split at h
    · exact Option.noConfusion h
    · rename_i s3 hstep
      exact (ih h).trans (aggKeyStep_frame hstep i hi)

theorem aggLoopSt_frame {ra : Nat} (addrs : List Nat) {s s2 : Store}
    (h : aggLoopSt ra s addrs = some s2) (i : Nat) (hi : i ≠ ra) :
    storeGet s2 i = storeGet s i := by
  induction addrs generalizing s with
  | nil =>
    simp only [aggLoopSt] at h
    injection h with h2
    subst h2
    rfl
  | cons a rest ih =>
    simp only [aggLoopSt] at h
    split at h
    · exact Option.noConfusion h
    · rename_i s3 hstep
      exact (ih h).trans (aggContribLoop_frame _ hstep i hi)

theorem keys_map_pair (L : List String) (f : String → Int) :
    (L.map (fun x => (x, f x))).map Prod.fst = L := by
  induction L with
  | nil => rfl
  | cons a L ih => simp only [List.map_cons, ih]

/-- `rawContribution` on an object response unfolds to the `contribution`
lookup. -/
theorem rawContribution_obj (fs : List (String × JVal)) :
    rawContribution (some (.jobj fs)) =
      match pyDictGet fs "contribution" with
      | some .jnull => none
      | x => x := rfl

/-! ### The claims -/

/-- C1, counterexample: with one user and every fetch failing, aggregate mode
prints the banner and then the zeroed aggregate record — the no-data message
appears nowhere in the output, contrary to the claim. -/
theorem aggregate_empty_prints_record_cex :
    display_aggregate_stats (fun _ => none) "jdoe@x.com" none none =
      some (.ok (aggBanner ["jdoe"] ++
        ["Contributions:", jsonDumps (recToJVal initRec)])) ∧
    noDataMsg ∉
      (["Contributions:", jsonDumps (recToJVal initRec)] : List String) ∧
    noDataMsg ∉ aggBanner ["jdoe"] :=
  ⟨rfl, by decide, by decide⟩

/-- C1, amended: in aggregate mode, when every identifier's fetch yields no
data (so the set of found contribution records is empty), the reporter prints
the zeroed aggregate record — the aggregate dict always has the twelve known
keys, hence is truthy — and not the fixed no-data message. -/
theorem aggregate_empty_prints_record (env : String → Option JVal)
    (release : Option String) (users : List String)
    (h : ∀ u ∈ users, env (buildUrl u release) = none) :
    display_aggregate_for_users env release users =
      .ok (aggBanner (pySort users) ++
        ["Contributions:", jsonDumps (recToJVal initRec)]) ∧
    noDataMsg ∉
      (["Contributions:", jsonDumps (recToJVal initRec)] : List String) := by
  constructor
  · have hd : display_stats (some (recToJVal initRec)) =
        ["Contributions:", jsonDumps (recToJVal initRec)] := rfl
    unfold display_aggregate_for_users
    rw [fetch_loop_all_absent env release users [] [] h]
    simp [allIntRecs, get_aggregate_contributions,
      get_aggregate_contributions_from, hd]
  · decide

theorem aggregate_empty_prints_record_witness :
    (∀ u ∈ (["alice", "bob"] : List String),
      (fun _ => (none : Option JVal)) (buildUrl u none) = none) ∧
    (display_aggregate_for_users (fun _ => none) none ["alice", "bob"] =
      .ok (aggBanner (pySort ["alice", "bob"]) ++
        ["Contributions:", jsonDumps (recToJVal initRec)]) ∧
     noDataMsg ∉
       (["Contributions:", jsonDumps (recToJVal initRec)] : List String)) :=
  ⟨fun _ _ => rfl,
   aggregate_empty_prints_record (fun _ => none) none ["alice", "bob"]
     (fun _ _ => rfl)⟩

/-- C2, counterexample: a response that parses and carries a non-empty
`contribution` object without a `marks` field makes
`__get_contribution_for_user` raise an uncaught `KeyError` (the `marks`
collapse happens outside the `try/except`), instead of returning absent as
the claim states. -/
theorem fetch_missing_marks_raises_cex :
    get_contribution_for_user
      (fun _ => some (.jobj
        [("contribution", .jobj [("commit_count", .jint 1)])]))
      "jdoe" none = .error "KeyError: marks" := rfl

/-- C2, amended: on a fetch failure up to and including a missing
`contribution` field or a falsy `contribution` value, the call returns it
unprocessed (absent, or the falsy value itself); only a truthy `contribution`
that lacks a well-shaped `marks` mapping raises instead. -/
theorem fetch_absent_on_failure (env : String → Option JVal) (user : String)
    (release : Option String)
    (h : ∀ v, rawContribution (env (buildUrl user release)) = some v →
      pyTruthy v = false) :
    get_contribution_for_user env user release =
      .ok (rawContribution (env (buildUrl user release))) := by
  unfold get_contribution_for_user processContribution
  cases hr : rawContribution (env (buildUrl user release)) with
  | none => rfl
  | some v =>
    simp [h v hr]

theorem fetch_absent_on_failure_witness :
    (∀ v, rawContribution
        ((fun _ => (none : Option JVal)) (buildUrl "jdoe" none)) = some v →
      pyTruthy v = false) ∧
    get_contribution_for_user (fun _ => none) "jdoe" none =
      .ok (rawContribution
        ((fun _ => (none : Option JVal)) (buildUrl "jdoe" none))) :=
  ⟨fun _ hv => Option.noConfusion hv,
   fetch_absent_on_failure (fun _ => none) "jdoe" none
     (fun _ hv => Option.noConfusion hv)⟩

/-- C3, counterexample: the email `"alice"` has no `@`, and the resolver
produces the token `"alic"` — the trimmed string minus its last character —
not the whole trimmed string `"alice"` the claim states. -/
theorem no_at_token_cex :
    get_users_from_file "alice" none = some ["alic"] ∧
    ("alic" : String) ≠ "alice" :=
  ⟨rfl, by decide⟩

/-- C3, amended: for an email entry with no `@` character (and no comma, so
it is a single token of the line), the resolver uses the trimmed email string
minus its final character as the identifier token: `find` returns `-1` and
the slice `email[0:-1]` drops the last character. -/
theorem no_at_token (email : String) (h1 : '@' ∉ email.toList)
    (h2 : ',' ∉ email.toList) :
    get_users_from_file email none =
      some [pyStrip (String.mk email.toList.dropLast)] := by
  unfold get_users_from_file
  rw [get_tokens_no_comma email h2]
  have hl : localPart email = String.mk email.toList.dropLast := by
    show (if pyFind email.toList '@' = -1 then String.mk email.toList.dropLast
      else String.mk (email.toList.take (pyFind email.toList '@').toNat)) =
      String.mk email.toList.dropLast
    rw [pyFind_eq_neg_one email.toList '@' h1]
    simp
  have hd : ∀ x : String, ([x] : List String).dedup = [x] := fun x => by
    rw [List.dedup_cons_of_not_mem (by simp), List.dedup_nil]
  simp [resolveAll, get_eff_user, hl, hd]

theorem no_at_token_witness :
    ('@' ∉ "bob".toList) ∧ (',' ∉ "bob".toList) ∧
    get_users_from_file "bob" none =
      some [pyStrip (String.mk "bob".toList.dropLast)] :=
  ⟨by decide, by decide, no_at_token "bob" (by decide) (by decide)⟩

/-- C4: on a successful fetch whose `contribution` object is truthy and whose
`marks` field is a mapping summing to `s`, the returned record is the raw
object with `marks` replaced by the single integer `s`, every other field
passing through unchanged. -/
theorem marks_collapsing (env : String → Option JVal) (user : String)
    (release : Option String) (fs ms : List (String × JVal)) (s : Int)
    (hraw : rawContribution (env (buildUrl user release)) = some (.jobj fs))
    (hne : fs.isEmpty = false)
    (hmarks : pyDictGet fs "marks" = some (.jobj ms))
    (hsum : sumVals 0 (ms.map Prod.snd) = some s) :
    get_contribution_for_user env user release =
      .ok (some (.jobj (pyDictSet fs "marks" (.jint s)))) ∧
    pyDictGet (pyDictSet fs "marks" (.jint s)) "marks" = some (.jint s) ∧
    ∀ k, k ≠ "marks" →
      pyDictGet (pyDictSet fs "marks" (.jint s)) k = pyDictGet fs k := by
  refine ⟨?_, pyDictGet_set_self fs "marks" (.jint s),
    fun k hk => pyDictGet_set_ne fs "marks" k (.jint s) hk⟩
  unfold get_contribution_for_user processContribution
  rw [hraw]
  have ht : pyTruthy (JVal.jobj fs) = true := by
    simp [pyTruthy, hne]
  simp only [ht, if_true, hmarks, hsum]

def c4fs : List (String × JVal) :=
  [("commit_count", .jint 4), ("loc", .jint 100),
   ("marks", .jobj [("-1", .jint 2), ("1", .jint 5)])]

def c4env : String → Option JVal :=
  fun _ => some (.jobj [("contribution", .jobj c4fs)])

theorem marks_collapsing_witness :
    (rawContribution (c4env (buildUrl "jdoe" none)) = some (.jobj c4fs)) ∧
    (sumVals 0 ([("-1", JVal.jint 2), ("1", JVal.jint 5)].map Prod.snd) =
      some 7) ∧
    (get_contribution_for_user c4env "jdoe" none =
      .ok (some (.jobj (pyDictSet c4fs "marks" (.jint 7)))) ∧
     pyDictGet (pyDictSet c4fs "marks" (.jint 7)) "marks" = some (.jint 7) ∧
     ∀ k, k ≠ "marks" →
       pyDictGet (pyDictSet c4fs "marks" (.jint 7)) k = pyDictGet c4fs k) :=
  ⟨rfl, rfl,
   marks_collapsing c4env "jdoe" none c4fs
     [("-1", JVal.jint 2), ("1", JVal.jint 5)] 7 rfl rfl rfl rfl⟩

/-- C5: aggregating any permutation of a list of records whose keys all lie
in the known-key set yields an identical result record. -/
theorem aggregate_perm_invariant (l1 l2 : List ContribRec)
    (hp : l1.Perm l2) (hk : ∀ r ∈ l1, ∀ p ∈ r, p.1 ∈ knownKeys) :
    get_aggregate_contributions l1 = get_aggregate_contributions l2 := by
  have hk2 : ∀ r ∈ l2, ∀ p ∈ r, p.1 ∈ knownKeys :=
    fun r hr => hk r (hp.mem_iff.mpr hr)
  rw [agg_spec l1 hk, agg_spec l2 hk2]
  have he : (fun x => (x, totalSum l1 x)) = fun x => (x, totalSum l2 x) := by
    funext x
    have ht : totalSum l1 x = totalSum l2 x :=
      List.Perm.sum_eq (hp.map (fun r => entrySum r x))
    rw [ht]
  rw [he]

theorem aggregate_perm_invariant_witness :
    ([[("commit_count", (2 : Int))], [("loc", (10 : Int))]].Perm
      [[("loc", (10 : Int))], [("commit_count", (2 : Int))]]) ∧
    get_aggregate_contributions
        [[("commit_count", (2 : Int))], [("loc", (10 : Int))]] =
      get_aggregate_contributions
        [[("loc", (10 : Int))], [("commit_count", (2 : Int))]] :=
  ⟨List.Perm.swap [("loc", (10 : Int))] [("commit_count", (2 : Int))] [],
   aggregate_perm_invariant
     [[("commit_count", (2 : Int))], [("loc", (10 : Int))]]
     [[("loc", (10 : Int))], [("commit_count", (2 : Int))]]
     (List.Perm.swap [("loc", (10 : Int))] [("commit_count", (2 : Int))] [])
     (by decide)⟩

/-- C6: for records over the known metric keys (with dict-like distinct
keys), the aggregate exists, has exactly the twelve fixed keys, each key's
value is the sum over the inputs of that key's value (absent keys counting
0), and the aggregate of the empty list is the all-zero record. -/
theorem aggregate_totals (l : List ContribRec)
    (hk : ∀ r ∈ l, ∀ p ∈ r, p.1 ∈ knownKeys)
    (hnd : ∀ r ∈ l, (r.map Prod.fst).Nodup) :
    ∃ res, get_aggregate_contributions l = some res ∧
      res.map Prod.fst = knownKeys ∧
      (∀ k ∈ knownKeys, pyDictGet res k =
        some ((l.map (fun r => (pyDictGet r k).getD 0)).sum)) ∧
      get_aggregate_contributions [] =
        some (knownKeys.map (fun k => (k, 0))) := by
  refine ⟨knownKeys.map (fun x => (x, totalSum l x)), agg_spec l hk, ?_, ?_,
    rfl⟩
  · exact keys_map_pair knownKeys (fun x => totalSum l x)
  · intro k hkk
    rw [pyDictGet_map_mem knownKeys (fun x => totalSum l x) k hkk]
    have ht : totalSum l k =
        (l.map (fun r => (pyDictGet r k).getD 0)).sum := by
      unfold totalSum
      congr 1
      apply List.map_congr_left
      intro r hr
      exact entrySum_eq_getD r k (hnd r hr)
    rw [ht]

def c6l : List ContribRec :=
  [[("commit_count", 2), ("loc", 10)], [("commit_count", 3), ("loc", 5)]]

theorem aggregate_totals_witness :
    (∀ r ∈ c6l, ∀ p ∈ r, p.1 ∈ knownKeys) ∧
    (∀ r ∈ c6l, (r.map Prod.fst).Nodup) ∧
    (∃ res, get_aggregate_contributions c6l = some res ∧
      res.map Prod.fst = knownKeys ∧
      (∀ k ∈ knownKeys, pyDictGet res k =
        some ((c6l.map (fun r => (pyDictGet r k).getD 0)).sum)) ∧
      get_aggregate_contributions [] =
        some (knownKeys.map (fun k => (k, 0)))) :=
  ⟨by decide, by decide, aggregate_totals c6l (by decide) (by decide)⟩

/-- C7: a record carrying a metric key outside the fixed known-key set makes
the aggregation fail with the uncaught `KeyError` (modelled by `none`) rather
than ignoring or adding the key. -/
theorem aggregate_unknown_key_fatal (l : List ContribRec)
    (h : ∃ r ∈ l, ∃ p ∈ r, p.1 ∉ knownKeys) :
    get_aggregate_contributions l = none := by
  obtain ⟨r, hr, p, hp, hk⟩ := h
  cases hres : get_aggregate_contributions l with
  | none => rfl
  | some res =>
    unfold get_aggregate_contributions at hres
    have := agg_from_some_keys hres r hr p hp
    rw [initRec_keys] at this
    exact absurd this hk

theorem aggregate_unknown_key_fatal_witness :
    (∃ r ∈ ([[("bogus", (1 : Int))]] : List ContribRec), ∃ p ∈ r,
      p.1 ∉ knownKeys) ∧
    get_aggregate_contributions [[("bogus", (1 : Int))]] = none :=
  ⟨by decide, aggregate_unknown_key_fatal [[("bogus", (1 : Int))]] (by decide)⟩

/-- C8: for an email-list line and a well-formed alias mapping, the resolver
returns a duplicate-free collection holding exactly, for each email of the
line, its stripped before-`@` token substituted through the alias mapping
when present and kept as-is otherwise. -/
theorem resolver_dedup_alias (line mapLine : String)
    (m : List (String × String))
    (hm : buildUserMap (get_tokens mapLine) = some m) :
    ∃ us, get_users_from_file line (some mapLine) = some us ∧ us.Nodup ∧
      ∀ x, x ∈ us ↔ ∃ e ∈ get_tokens line,
        x = (pyDictGet m (pyStrip (localPart e))).getD
          (pyStrip (localPart e)) := by
  refine ⟨((get_tokens line).map (fun e =>
      (pyDictGet m (pyStrip (localPart e))).getD
        (pyStrip (localPart e)))).dedup, ?_, List.nodup_dedup _, ?_⟩
  · unfold get_users_from_file
    rw [resolveAll_some_map mapLine m hm (get_tokens line)]
    rfl
  · intro x
    rw [List.mem_dedup, List.mem_map]
    constructor
    · rintro ⟨e, he, hx⟩
      exact ⟨e, he, hx.symm⟩
    · rintro ⟨e, he, hx⟩
      exact ⟨e, he, hx.symm⟩

theorem resolver_dedup_alias_witness :
    (buildUserMap (get_tokens "a:alice-id") = some [("a", "alice-id")]) ∧
    (∃ us, get_users_from_file "a@x.com,b@y.com,a@x.com"
        (some "a:alice-id") = some us ∧ us.Nodup ∧
      ∀ x, x ∈ us ↔ ∃ e ∈ get_tokens "a@x.com,b@y.com,a@x.com",
        x = (pyDictGet [("a", "alice-id")] (pyStrip (localPart e))).getD
          (pyStrip (localPart e))) :=
  ⟨rfl, resolver_dedup_alias "a@x.com,b@y.com,a@x.com" "a:alice-id"
    [("a", "alice-id")] rfl⟩

/-- C9: `__get_aggregate_contributions` does not mutate its input records:
in the store-level embedding, after a successful run every input address
still holds the record it held before the call (all writes go to the freshly
allocated aggregate). -/
theorem aggregate_no_input_mutation (s : Store) (addrs : List Nat)
    (hv : ∀ a ∈ addrs, a < s.length) (s2 : Store) (ra : Nat)
    (h : get_aggregate_contributions_st s addrs = some (s2, ra)) :
    ∀ a ∈ addrs, storeGet s2 a = storeGet s a := by
  intro a ha
  unfold get_aggregate_contributions_st at h
  obtain ⟨s3, hrun, hpair⟩ := Option.map_eq_some'.mp h
  rw [Prod.mk.injEq] at hpair
  obtain ⟨rfl, rfl⟩ := hpair
  have hne : a ≠ s.length := Nat.ne_of_lt (hv a ha)
  exact (aggLoopSt_frame addrs hrun a hne).trans
    (storeGet_append_lt s [initRec] a (hv a ha))

def c9s : Store := [[("commit_count", (5 : Int))]]

def c9out : Store :=
  [[("commit_count", (5 : Int))],
   [("change_request_count", 0), ("commit_count", 5),
    ("completed_blueprint_count", 0), ("drafted_blueprint_count", 0),
    ("email_count", 0), ("filed_bug_count", 0), ("loc", 0), ("marks", 0),
    ("patch_set_count", 0), ("resolved_bug_count", 0),
    ("abandoned_change_requests_count", 0), ("translations", 0)]]

theorem aggregate_no_input_mutation_witness :
    (∀ a ∈ ([0] : List Nat), a < c9s.length) ∧
    (get_aggregate_contributions_st c9s [0] = some (c9out, 1)) ∧
    ∀ a ∈ ([0] : List Nat), storeGet c9out a = storeGet c9s a :=
  ⟨by decide, by decide,
   aggregate_no_input_mutation c9s [0] (by decide) c9out 1 (by decide)⟩

/-- C10: a response whose `contribution` field is the empty object is
returned as-is, without the `marks` collapse; the single-user mode then
prints the no-data message, and the aggregate mode counts the user among the
not-found list with no record collected. -/
theorem empty_contribution_no_data (env : String → Option JVal)
    (user : String) (release : Option String) (fs : List (String × JVal))
    (hresp : env (buildUrl user release) = some (.jobj fs))
    (hc : pyDictGet fs "contribution" = some (.jobj [])) :
    get_contribution_for_user env user release = .ok (some (.jobj [])) ∧
    display_user_stats env user release = .ok [noDataMsg] ∧
    fetch_loop env release [] [] [user] = .ok ([user], []) := by
  have hraw : rawContribution (env (buildUrl user release)) =
      some (.jobj []) := by
    rw [hresp, rawContribution_obj, hc]
  have hget : get_contribution_for_user env user release =
      .ok (some (.jobj [])) := by
    unfold get_contribution_for_user processContribution
    rw [hraw]
    rfl
  refine ⟨hget, ?_, ?_⟩
  · unfold display_user_stats
    rw [hget]
    rfl
  · simp only [fetch_loop]
    rw [hget]
    rfl

def c10env : String → Option JVal :=
  fun _ => some (.jobj [("contribution", .jobj [])])

theorem empty_contribution_no_data_witness :
    (c10env (buildUrl "jdoe" none) =
      some (.jobj [("contribution", .jobj [])])) ∧
    (get_contribution_for_user c10env "jdoe" none =
      .ok (some (.jobj [])) ∧
     display_user_stats c10env "jdoe" none = .ok [noDataMsg] ∧
     fetch_loop c10env none [] [] ["jdoe"] = .ok (["jdoe"], [])) :=
  ⟨rfl, empty_contribution_no_data c10env "jdoe" none
    [("contribution", .jobj [])] rfl rfl⟩

end OsStats
